import Mathlib

/-!
# Verification of the editor store's derived-state query layer (selectors)

The repository is a block-based rich-text editor.  Its substance relevant to
verification is, per the specification, "a set of pure derivation functions
that compute editor-facing facts (selection state, insertion points,
publishability, suggested formats, inserter ranking) from a normalized
in-memory document tree, plus a memoization/caching layer to keep those
derivations cheap under frequent UI updates."

The selector implementations themselves are not part of the provided source
tree; only their exhaustive unit-test suite (`src/unnamed/part_000`) is.
Each selector below is therefore modelled from the specification sentence
above, with its behaviour pinned point-by-point by the assertions of that
test suite.  JavaScript objects are modelled as association lists keyed by
strings (object keys are strings and iteration follows insertion order),
JavaScript `null`/`undefined` as `Option.none`, and fallible lookups return
`Option` rather than throwing.  All definitions are executable.
-/

/-- A JavaScript attribute value as it appears in the tested block records:
either a plain string (e.g. `layout: 'wide'`) or a list of strings
(e.g. `content: [ 'foo' ]`). -/
inductive AttrVal where
  | str (s : String)
  | strList (l : List String)
deriving DecidableEq, Repr

/-- A block record held in `editor.present.blocksByClientId`. -/
structure Block where
  clientId : String
  name : String
  attributes : List (String × AttrVal)
deriving DecidableEq, Repr

/-- The `editor.present.edits` object.  A key can be absent (outer `none`),
present with value `null` (`some none`), or present with a string value
(`some (some v)`); the tests distinguish an edit that sets `password`
to `null` from no edit at all. -/
structure Edits where
  status : Option (Option String) := none
  password : Option (Option String) := none
deriving DecidableEq, Repr

/-- The `editor.present` slice: the normalized document tree
(block records keyed by client id, plus the order lists keyed by parent
client id, the top level under the key `""`), and the pending edits. -/
structure EditorPresent where
  blocksByClientId : List (String × Block) := []
  blockOrder : List (String × List String) := []
  edits : Edits := {}
deriving DecidableEq, Repr

/-- The `editor` slice. -/
structure Editor where
  isDirty : Bool := false
  present : EditorPresent := {}
deriving DecidableEq, Repr

/-- The `currentPost` object.  `links` models the `_links` object as the
list of property names it contains (`none` when `_links` is absent). -/
structure CurrentPost where
  status : Option String := none
  password : Option String := none
  links : Option (List String) := none
deriving DecidableEq, Repr

/-- The `blockSelection` slice.  `start`/`stop` model the
`start`/`end` fields (`end` is a reserved word in Lean);
`none` stands for `null`/`undefined`. -/
structure BlockSelection where
  start : Option String := none
  stop : Option String := none
deriving DecidableEq, Repr

/-- An entry of `preferences.insertUsage`: how often and most recently an
inserter item was used. -/
structure InsertUsage where
  count : Nat := 0
  time : Option Nat := none
deriving DecidableEq, Repr

/-- The `preferences` slice. -/
structure Preferences where
  insertUsage : List (String × InsertUsage) := []
deriving DecidableEq, Repr

/-- A reusable block record from `reusableBlocks.data`. -/
structure ReusableBlock where
  clientId : String
  title : String := ""
deriving DecidableEq, Repr

/-- The `reusableBlocks` slice. -/
structure ReusableBlocksState where
  data : List (Nat × ReusableBlock) := []
deriving DecidableEq, Repr

/-- A JavaScript allow-list value: the tests exercise booleans and arrays
of block names (`undefined` is modelled by wrapping in `Option`). -/
inductive AllowList where
  | abool (b : Bool)
  | alist (l : List String)
deriving DecidableEq, Repr

/-- Per-block inserter settings stored under `state.blockListSettings`. -/
structure BlockListSettingsEntry where
  allowedBlocks : Option AllowList := none
  templateLock : Option String := none
deriving DecidableEq, Repr

/-- Editor-wide settings. -/
structure Settings where
  allowedBlockTypes : Option AllowList := none
  templateLock : Option String := none
deriving DecidableEq, Repr

/-- The store state, restricted to the slices the derivation functions under
verification read.  The `optimist` and `saving` slices (pending save
transactions) are outside the modelled fragment. -/
structure State where
  editor : Editor := {}
  currentPost : CurrentPost := {}
  blockSelection : BlockSelection := {}
  blockListSettings : List (String × BlockListSettingsEntry) := []
  preferences : Preferences := {}
  reusableBlocks : ReusableBlocksState := {}
  settings : Settings := {}
deriving DecidableEq, Repr

/-- Association-list lookup by string key, modelling JavaScript property
access `obj[key]` (first binding wins; JS object keys are unique). -/
def assocLookup {α : Type} (key : String) : List (String × α) → Option α
  | [] => none
  | (k, v) :: rest => if k = key then some v else assocLookup key rest

/-- JavaScript `Array.prototype.indexOf`: the index of the first occurrence,
or `-1` when absent. -/
def jsIndexOf (l : List String) (a : String) : Int :=
  match l with
  | [] => -1
  | x :: xs =>
    if x = a then 0
    else if jsIndexOf xs a = -1 then -1 else jsIndexOf xs a + 1

/-- JavaScript `Array.prototype.slice( b, e )` with the negative-index and
clamping conventions of ECMAScript. -/
def jsSlice {α : Type} (l : List α) (b e : Int) : List α :=
  let n : Int := l.length
  let bi : Int := if b < 0 then max 0 (n + b) else min b n
  let ei : Int := if e < 0 then max 0 (n + e) else min e n
  (l.take ei.toNat).drop bi.toNat

/-- JavaScript truthiness of an optional string (`null`, `undefined` and
`''` are falsy). -/
def truthyStr : Option String → Bool
  | some s => s ≠ ""
  | none => false

/-! ## Basic tree selectors -/

/-- Modelled from the spec: selector over the normalized document tree.
`getBlockOrder( state, rootClientId )` returns
`state.editor.present.blockOrder[ rootClientId || '' ] || []`, the order
list of a root block's inner blocks (top level when `rootClientId` is
absent). -/
def getBlockOrder (s : State) (rootClientId : Option String) : List String :=
  (assocLookup (rootClientId.getD "") s.editor.present.blockOrder).getD []

/-- Modelled from the spec: selector over the normalized document tree.
`getBlockName( state, clientId )` returns the block's registered name, or
`null` (here `none`) when no block with that client id exists. -/
def getBlockName (s : State) (clientId : String) : Option String :=
  (assocLookup clientId s.editor.present.blocksByClientId).map Block.name

/-- Modelled from the spec: selector over the normalized document tree.
`getBlockRootClientId( state, clientId )` scans the `blockOrder` map in key
insertion order and returns the first key whose order list contains
`clientId` (`""` for the top level), or `null` when the block is in no
order list. -/
def getBlockRootClientId (s : State) (clientId : String) : Option String :=
  (s.editor.present.blockOrder.find? (fun kv => kv.2.contains clientId)).map Prod.fst

/-- The `layout` attribute of a block, as read by the insertion-point
selector through `get( getBlock( state, clientId ), [ 'attributes', 'layout' ] )`. -/
def blockLayout (s : State) (clientId : String) : Option AttrVal :=
  (assocLookup clientId s.editor.present.blocksByClientId).bind
    (fun b => assocLookup "layout" b.attributes)

/-! ## Post-level selectors -/

/-- Modelled from the spec: `isEditedPostDirty` reports whether the editor
holds unsaved changes; on the modelled state fragment this is
`state.editor.isDirty`. -/
def isEditedPostDirty (s : State) : Bool :=
  s.editor.isDirty

/-- Modelled from the spec: publishability derivation.  A post is
publishable when it is dirty or its current status is none of
`publish`, `private`, `future`. -/
def isEditedPostPublishable (s : State) : Bool :=
  isEditedPostDirty s ||
    !(match s.currentPost.status with
      | some st => ["publish", "private", "future"].contains st
      | none => false)

/-- Modelled from the spec: `getEditedPostAttribute`-style effective status:
the edited value when `status` is present in `edits`, else the value on
`currentPost`. -/
def effectiveStatus (s : State) : Option String :=
  match s.editor.present.edits.status with
  | some v => v
  | none => s.currentPost.status

/-- Modelled from the spec: effective password, the edited value when
`password` is present in `edits` (an edit of `null` removes it), else the
value on `currentPost`. -/
def effectivePassword (s : State) : Option String :=
  match s.editor.present.edits.password with
  | some v => v
  | none => s.currentPost.password

/-- Modelled from the spec: visibility derivation.  `private` when the
effective status is `private`, `password` when an effective password is
set (truthy), `public` otherwise. -/
def getEditedPostVisibility (s : State) : String :=
  if effectiveStatus s = some "private" then "private"
  else if truthyStr (effectivePassword s) then "password"
  else "public"

/-- Modelled from the spec: capability probe.  True exactly when the
current post's `_links` object exists and contains the property
`wp:action-unfiltered_html`. -/
def canUserUseUnfilteredHTML (s : State) : Bool :=
  match s.currentPost.links with
  | some props => props.contains "wp:action-unfiltered_html"
  | none => false

/-- Modelled from the spec: `getBlockListSettings( state, clientId )` reads
`state.blockListSettings[ clientId ]`; absent settings yield `undefined`
(here `none`), never an error. -/
def getBlockListSettings (s : State) (clientId : String) : Option BlockListSettingsEntry :=
  assocLookup clientId s.blockListSettings

/-! ## Selection selectors -/

/-- Modelled from the spec: selection-state derivation.  A multi-selection
exists exactly when the selection's start and end differ. -/
def hasMultiSelection (s : State) : Bool :=
  s.blockSelection.start ≠ s.blockSelection.stop

/-- Modelled from the spec: selection-state derivation.  The client ids of
the multi-selected blocks: the compact range of the block order between
the start and the end of the selection, inclusive at both ends, taken in
document order whichever of the two comes first; empty when the selection
is not a multi-selection.  The containing order list is found from the
start block's root.  (The tests only exercise selections whose start and
end are both set or both unset; the model collapses the
`null`-versus-`undefined` distinction of the JS fields.) -/
def getMultiSelectedBlockClientIds (s : State) : List String :=
  match s.blockSelection.start, s.blockSelection.stop with
  | some st, some en =>
    if st = en then []
    else
      let order := getBlockOrder s (getBlockRootClientId s st)
      let si := jsIndexOf order st
      let ei := jsIndexOf order en
      if si > ei then jsSlice order ei (si + 1) else jsSlice order si (ei + 1)
  | _, _ => []

/-- Modelled from the spec: selection-state derivation.  A block is
"within" the multi-selection when it occurs in the multi-selected range at
any position but the last (the block at the selection's trailing edge
answers `false`); a falsy client id answers `false`. -/
def isBlockWithinSelection (s : State) (clientId : String) : Bool :=
  if clientId = "" then false
  else
    let ids := getMultiSelectedBlockClientIds s
    let index := jsIndexOf ids clientId
    index > -1 && index < (ids.length : Int) - 1

/-! ## Memoization cache-bust token -/

/-- Modelled from the spec: the memoization/caching layer keys cached
results by the parts of the document tree a block's derivation depends on.
`cacheBustAux` flattens the inner-block subtree of a block in preorder,
recording for every descendant its depth, client id and block record; the
`fuel` argument bounds the recursion (the document tree is finite and
acyclic, and a nesting chain is never longer than the number of order
lists). -/
def cacheBustAux (s : State) : Nat → Nat → String → List (Nat × String × Option Block)
  | 0, _, _ => []
  | fuel + 1, depth, clientId =>
    (getBlockOrder s (some clientId)).flatMap
      (fun inner =>
        (depth, inner, assocLookup inner s.editor.present.blocksByClientId) ::
          cacheBustAux s fuel (depth + 1) inner)

/-- Modelled from the spec: `getBlockDependantsCacheBust( state, clientId )`
returns a token that is stable while the block's inner-block subtree
(records and ordering, at every depth) is unchanged and differs whenever
any part of that subtree changed.  The tests compare tokens by reference;
the model compares them by value, which coincides for this token because a
fresh token is produced exactly when some dependant changed. -/
def getBlockDependantsCacheBust (s : State) (clientId : String) :
    List (Nat × String × Option Block) :=
  cacheBustAux s (s.editor.present.blockOrder.length + 1) 0 clientId

/-! ## Insertion point -/

/-- The record returned by `getBlockInsertionPoint`. -/
structure InsertionPoint where
  rootClientId : Option String
  layout : Option AttrVal
  index : Int
deriving DecidableEq, Repr

/-- `rootClientId || undefined`: the top-level key `""` is falsy in JS and
is reported as `undefined`. -/
def rootOrUndefined : Option String → Option String
  | some p => if p = "" then none else some p
  | none => none

/-- Modelled from the spec: insertion-point derivation.  When the selection
has an end block, the insertion point sits right after it inside that
block's parent (top level reported as `undefined`), carrying the block's
`layout` attribute; with no selection it sits after the last top-level
block. -/
def getBlockInsertionPoint (s : State) : InsertionPoint :=
  match s.blockSelection.stop with
  | some e =>
    if e = "" then
      { rootClientId := none, layout := none, index := (getBlockOrder s none).length }
    else
      let root := rootOrUndefined (getBlockRootClientId s e)
      { rootClientId := root
        layout := blockLayout s e
        index := jsIndexOf (getBlockOrder s root) e + 1 }
  | none =>
    { rootClientId := none, layout := none, index := (getBlockOrder s none).length }

/-! ## Suggested post format -/

/-- Modelled from the spec: suggested-format derivation.  A single-block
post suggests a format from that block's name; a two-block post whose
first block is a quote followed by a paragraph suggests the quote format;
anything else suggests none.  Only image, quote and video formats are ever
suggested. -/
def getSuggestedPostFormat (s : State) : Option String :=
  let order := getBlockOrder s none
  let name : Option String :=
    match order with
    | [a] => getBlockName s a
    | [a, b] =>
      if getBlockName s a = some "core/quote" ∧ getBlockName s b = some "core/paragraph" then
        getBlockName s a
      else none
    | _ => none
  match name with
  | some "core/image" => some "image"
  | some "core/quote" => some "quote"
  | some "core-embed/youtube" => some "video"
  | _ => none

/-! ## Inserter items -/

/-- A registered block type, with the support flags the inserter reads
(`supports.inserter` and `supports.multiple` default to `true`). -/
structure BlockType where
  name : String
  title : String
  icon : Option String := none
  category : String
  keywords : List String := []
  inserterSupport : Bool := true
  multipleSupport : Bool := true
  parent : Option (List String) := none
deriving DecidableEq, Repr

/-- The block-type registry as configured by the repository's test suite:
the reusable-block wrapper type (hidden from the inserter) and three test
block types, one common with `multiple: false`, one restricted to a
parent. -/
def blockTypes : List BlockType :=
  [ { name := "core/block", title := "Reusable Block Stub", category := "reusable",
      inserterSupport := false },
    { name := "core/test-block-a", title := "Test Block A", icon := some "test",
      category := "formatting", keywords := ["testing"] },
    { name := "core/test-block-b", title := "Test Block B", icon := some "test",
      category := "common", keywords := ["testing"], multipleSupport := false },
    { name := "core/test-block-c", title := "Test Block C", icon := some "test",
      category := "common", keywords := ["testing"],
      parent := some ["core/test-block-b"] } ]

/-- Look a block type up in the registry. -/
def findBlockType (name : String) : Option BlockType :=
  blockTypes.find? (fun bt => bt.name = name)

/-- `checkAllowList( list, item, defaultResult )`: a boolean allow-list
decides outright, an array decides by membership (an absent item is never
a member), and an absent list yields the default (`null` when no default
is given). -/
def checkAllowList (list : Option AllowList) (item : Option String)
    (dflt : Option Bool) : Option Bool :=
  match list with
  | some (.abool b) => some b
  | some (.alist xs) =>
    some (match item with
      | some i => xs.contains i
      | none => false)
  | none => dflt

/-- Modelled from the spec: the template lock in force at a root: the
editor-wide `settings.templateLock` at the top level, else the root
block's `blockListSettings` entry's lock (none when the root has no
entry). -/
def getTemplateLock (s : State) (rootClientId : Option String) : Option String :=
  match rootClientId with
  | none => s.settings.templateLock
  | some r =>
    if r = "" then s.settings.templateLock
    else
      match assocLookup r s.blockListSettings with
      | none => none
      | some bls => bls.templateLock

/-- Modelled from the spec: whether a block type may be inserted at a root.
The type must exist and be allowed by the editor-wide allow-list; a
template lock forbids insertion; then the root's `allowedBlocks` list and
the type's own `parent` restriction are combined — when both apply, either
suffices; when one applies, it decides; when neither applies, insertion is
allowed. -/
def canInsertBlockType (s : State) (blockName : String)
    (rootClientId : Option String) : Bool :=
  match findBlockType blockName with
  | none => false
  | some bt =>
    let isBlockAllowedInEditor :=
      checkAllowList s.settings.allowedBlockTypes (some blockName) (some true)
    if isBlockAllowedInEditor ≠ some true then false
    else if truthyStr (getTemplateLock s rootClientId) then false
    else
      let parentSettings :=
        match rootClientId with
        | some r => assocLookup r s.blockListSettings
        | none => none
      let parentAllowedBlocks := parentSettings.bind BlockListSettingsEntry.allowedBlocks
      let hasParentAllowedBlock := checkAllowList parentAllowedBlocks (some blockName) none
      let parentName :=
        match rootClientId with
        | some r => getBlockName s r
        | none => none
      let hasBlockAllowedParent :=
        checkAllowList (bt.parent.map AllowList.alist) parentName none
      match hasParentAllowedBlock, hasBlockAllowedParent with
      | some p, some q => p || q
      | some p, none => p
      | none, some q => q
      | none, none => true

/-- Modelled from the spec: every client id in the document, in a depth
bounded traversal of the order tree from the top level. -/
def descendantsAux (s : State) : Nat → List String → List String
  | 0, _ => []
  | fuel + 1, ids =>
    ids.flatMap (fun cid => cid :: descendantsAux s fuel (getBlockOrder s (some cid)))

/-- Modelled from the spec: the client ids of all blocks in the post,
including nested ones. -/
def getClientIdsWithDescendants (s : State) : List String :=
  descendantsAux s (s.editor.present.blockOrder.length + 1) (getBlockOrder s none)

/-- The `insertUsage` record for an inserter item id, if any. -/
def getInsertUsage (s : State) (id : String) : Option InsertUsage :=
  assocLookup id s.preferences.insertUsage

/-- Inserter utility bands, exported by the selectors module. -/
def INSERTER_UTILITY_HIGH : Nat := 3

/-- Inserter utility band for items with recorded usage. -/
def INSERTER_UTILITY_MEDIUM : Nat := 2

/-- Inserter utility band for common blocks without recorded usage. -/
def INSERTER_UTILITY_LOW : Nat := 1

/-- Inserter utility band for everything else. -/
def INSERTER_UTILITY_NONE : Nat := 0

/-- Modelled from the spec: inserter-ranking utility of an item: highest
for contextual items (block types restricted to the surrounding parent),
medium for items with recorded usage, low for common blocks, none
otherwise. -/
def calculateUtility (category : String) (count : Nat) (isContextual : Bool) : Nat :=
  if isContextual then INSERTER_UTILITY_HIGH
  else if count > 0 then INSERTER_UTILITY_MEDIUM
  else if category = "common" then INSERTER_UTILITY_LOW
  else INSERTER_UTILITY_NONE

/-- Modelled from the spec: inserter-ranking frecency, derived from the
recorded usage count and time.  With no recorded time the frecency is the
raw count; recorded usage decays with age, and the model fixes the
evaluation instant long after any recorded time (the regime the
repository's tests exercise), collapsing the decay to its oldest bracket,
a quarter of the count.  The value is kept in quarter-count units so that
it stays an integer (the scaling by four preserves all comparisons). -/
def calculateFrecency (time : Option Nat) (count : Nat) : Nat :=
  match time with
  | none => 4 * count
  | some _ => count

/-- An inserter item.  `initialAttributesRef` models the
`initialAttributes: { ref }` payload of reusable-block items (`none` for
plain block types, which start with empty attributes). -/
structure InserterItem where
  id : String
  name : String
  initialAttributesRef : Option Nat := none
  title : String
  icon : Option String := none
  category : String
  keywords : List String := []
  isDisabled : Bool
  utility : Nat
  frecency : Nat
  hasChildBlocksWithInserterSupport : Option Bool := none
deriving DecidableEq, Repr

/-- The ranking key of an inserter item: utility first, then frecency. -/
def itemKey (it : InserterItem) : Nat × Nat :=
  (it.utility, it.frecency)

/-- Strict "ranks higher" comparison on ranking keys: higher utility, or
equal utility and higher frecency. -/
def keyLtB (a b : Nat × Nat) : Bool :=
  a.1 < b.1 || (a.1 = b.1 && a.2 < b.2)

/-- Stable descending insertion: the new item goes before the first item
it strictly outranks, hence after every earlier item of equal rank. -/
def insertItemDesc (x : InserterItem) : List InserterItem → List InserterItem
  | [] => [x]
  | y :: ys =>
    if keyLtB (itemKey y) (itemKey x) then x :: y :: ys
    else y :: insertItemDesc x ys

/-- Stable sort by descending utility, then descending frecency, as
`orderBy( items, [ 'utility', 'frecency' ], [ 'desc', 'desc' ] )`: items
are taken in their given order and each is inserted after every already
placed item of equal or higher rank. -/
def sortItemsDesc (l : List InserterItem) : List InserterItem :=
  l.foldl (fun acc x => insertItemDesc x acc) []

/-- Modelled from the spec: the inserter item built for a block type. -/
def buildBlockTypeInserterItem (s : State) (bt : BlockType) : InserterItem :=
  let usage := getInsertUsage s bt.name
  let count := (usage.map InsertUsage.count).getD 0
  let time := usage.bind InsertUsage.time
  { id := bt.name
    name := bt.name
    initialAttributesRef := none
    title := bt.title
    icon := bt.icon
    category := bt.category
    keywords := bt.keywords
    isDisabled :=
      !bt.multipleSupport &&
        (getClientIdsWithDescendants s).any
          (fun cid => getBlockName s cid = some bt.name)
    utility := calculateUtility bt.category count bt.parent.isSome
    frecency := calculateFrecency time count
    hasChildBlocksWithInserterSupport :=
      some (blockTypes.any (fun c =>
        ((c.parent.getD []).contains bt.name) && c.inserterSupport)) }

/-- Modelled from the spec: the inserter item built for a reusable block. -/
def buildReusableBlockInserterItem (s : State) (entry : Nat × ReusableBlock) : InserterItem :=
  let id := "core/block/" ++ toString entry.1
  let usage := getInsertUsage s id
  let count := (usage.map InsertUsage.count).getD 0
  let time := usage.bind InsertUsage.time
  { id := id
    name := "core/block"
    initialAttributesRef := some entry.1
    title := entry.2.title
    icon :=
      ((assocLookup entry.2.clientId s.editor.present.blocksByClientId).bind
        (fun b => findBlockType b.name)).bind BlockType.icon
    category := "reusable"
    keywords := []
    isDisabled := false
    utility := calculateUtility "reusable" count false
    frecency := calculateFrecency time count }

/-- Whether a reusable block is offered: the reusable wrapper type must be
insertable at the root, and the referenced block must exist, have a
registered type, and itself be insertable at the root. -/
def shouldIncludeReusableBlock (s : State) (rootClientId : Option String)
    (entry : Nat × ReusableBlock) : Bool :=
  canInsertBlockType s "core/block" rootClientId &&
    match assocLookup entry.2.clientId s.editor.present.blocksByClientId with
    | none => false
    | some blk =>
      match findBlockType blk.name with
      | none => false
      | some _ => canInsertBlockType s blk.name rootClientId

/-- Modelled from the spec: inserter ranking.  The items offered by the
inserter at a root: the registered block types with inserter support that
may be inserted there, followed by the offerable reusable blocks, the
whole list stably ordered by descending utility and then descending
frecency. -/
def getInserterItems (s : State) (rootClientId : Option String) : List InserterItem :=
  let blockTypeItems :=
    (blockTypes.filter
      (fun bt => bt.inserterSupport && canInsertBlockType s bt.name rootClientId)).map
      (buildBlockTypeInserterItem s)
  let reusableItems :=
    (s.reusableBlocks.data.filter (shouldIncludeReusableBlock s rootClientId)).map
      (buildReusableBlockInserterItem s)
  sortItemsDesc (blockTypeItems ++ reusableItems)

/-! ## The memoization/caching layer -/

/-- The dependants the caching layer records for `getInserterItems` at a
root: the root's own blockListSettings entry, the document tree, the usage
preferences, the editor-wide allow-list and lock, and the reusable-block
data.  (The block-type registry, also a dependant, is a constant here.) -/
structure InserterDeps where
  rootSettings : Option BlockListSettingsEntry
  blocksByClientId : List (String × Block)
  blockOrder : List (String × List String)
  insertUsage : List (String × InsertUsage)
  allowedBlockTypes : Option AllowList
  templateLock : Option String
  reusableData : List (Nat × ReusableBlock)
deriving DecidableEq, Repr

/-- The dependant values of `getInserterItems` read off a state. -/
def inserterDeps (s : State) (rootClientId : Option String) : InserterDeps :=
  { rootSettings :=
      match rootClientId with
      | some r => assocLookup r s.blockListSettings
      | none => none
    blocksByClientId := s.editor.present.blocksByClientId
    blockOrder := s.editor.present.blockOrder
    insertUsage := s.preferences.insertUsage
    allowedBlockTypes := s.settings.allowedBlockTypes
    templateLock := s.settings.templateLock
    reusableData := s.reusableBlocks.data }

/-- One cache cell of the memoized `getInserterItems`: the recorded
dependant values and the result computed from them. -/
structure InserterMemoCell where
  deps : InserterDeps
  result : List InserterItem
deriving DecidableEq, Repr

/-- The memoized selector's cache, one cell per root argument. -/
def InserterCache : Type := List (Option String × InserterMemoCell)

/-- Cache lookup by root argument. -/
def cacheFind (r : Option String) : InserterCache → Option InserterMemoCell
  | [] => none
  | (k, c) :: rest => if k = r then some c else cacheFind r rest

/-- Cache update: replace the cell for a root argument, or append one. -/
def cacheSet (r : Option String) (cell : InserterMemoCell) :
    InserterCache → InserterCache
  | [] => [(r, cell)]
  | (k, c) :: rest =>
    if k = r then (r, cell) :: rest else (k, c) :: cacheSet r cell rest

/-- Modelled from the spec: the memoization/caching layer around
`getInserterItems`.  A call first reads the dependant values off the
state; when the cache holds a cell for this root whose recorded dependants
are unchanged, the stored result is returned and the cache is untouched
(the JS layer returns the identical array reference); otherwise the
derivation is recomputed and the cell replaced. -/
def memoGetInserterItems (cache : InserterCache) (s : State)
    (rootClientId : Option String) : List InserterItem × InserterCache :=
  let d := inserterDeps s rootClientId
  match cacheFind rootClientId cache with
  | some cell =>
    if cell.deps = d then (cell.result, cache)
    else
      let v := getInserterItems s rootClientId
      (v, cacheSet rootClientId ⟨d, v⟩ cache)
  | none =>
    let v := getInserterItems s rootClientId
    (v, cacheSet rootClientId ⟨d, v⟩ cache)

/-- The cache invariant: every cell was filled from some state, recording
that state's dependant values and the result of the full derivation on
that state. -/
def InserterCacheInv (cache : InserterCache) : Prop :=
  ∀ r cell, cacheFind r cache = some cell →
    ∃ s₀, cell.deps = inserterDeps s₀ r ∧ cell.result = getInserterItems s₀ r

/-- Deep structural equality of two store states, the notion the tests use
(`toEqual`) when comparing two distinct state objects field by field. -/
def State.deepEq (s s' : State) : Bool :=
  decide (s = s')

/-! ## Concrete states from the repository's test suite -/

/-- The inserter-ordering test fixture: two reusable blocks whose usage
counts are 20 and 10 at the same recorded time. -/
def stateOrderTest : State :=
  { editor := { present := { blocksByClientId :=
      [("block1", { clientId := "block1", name := "core/test-block-a", attributes := [] }),
       ("block2", { clientId := "block2", name := "core/test-block-a", attributes := [] })] } }
    reusableBlocks := { data :=
      [(1, { clientId := "block1", title := "Reusable Block 1" }),
       (2, { clientId := "block1", title := "Reusable Block 2" })] }
    preferences := { insertUsage :=
      [("core/block/1", { count := 10, time := some 1000 }),
       ("core/block/2", { count := 20, time := some 1000 })] } }

/-- The inserter-caching test fixture. -/
def stateCaching : State :=
  { editor := { present := { blocksByClientId :=
      [("block1", { clientId := "block1", name := "core/test-block-a", attributes := [] }),
       ("block2", { clientId := "block2", name := "core/test-block-a", attributes := [] })] } }
    reusableBlocks := { data :=
      [(1, { clientId := "block1", title := "Reusable Block 1" }),
       (2, { clientId := "block1", title := "Reusable Block 2" })] } }

/-- The inserter-caching test fixture after restricting the blocks allowed
inside `block2` — a change unrelated to the root `block1`. -/
def stateCachingRestricted : State :=
  { stateCaching with blockListSettings :=
      [("block2", { allowedBlocks := some (.alist ["core/test-block-b"]) })] }

/-- The insertion-point test fixture with a nested selected block. -/
def stateNestedSelection : State :=
  { blockSelection := { start := some "clientId2", stop := some "clientId2" }
    editor := { present := {
      blocksByClientId :=
        [("clientId1", { clientId := "clientId1", name := "core/test-block-a", attributes := [] }),
         ("clientId2", { clientId := "clientId2", name := "core/test-block-a", attributes := [] })]
      blockOrder :=
        [("", ["clientId1"]), ("clientId1", ["clientId2"]), ("clientId2", [])] } } }

/-- The `isBlockWithinSelection` test fixture: a multi-selection from
block `5` to block `3` in the top-level order `5, 4, 3, 2, 1`. -/
def stateWithinSelection : State :=
  { blockSelection := { start := some "5", stop := some "3" }
    editor := { present := { blockOrder := [("", ["5", "4", "3", "2", "1"])] } } }

/-- The cache-bust test fixture: one root paragraph with no inner
blocks. -/
def stateCacheBust : State :=
  { editor := { present := {
      blocksByClientId :=
        [("123", { clientId := "123", name := "core/paragraph", attributes := [] })]
      blockOrder := [("", ["123"]), ("123", [])] } } }

/-- A second, separately constructed state deeply equal to
`stateCacheBust`, as built by the "returns an unchanging reference"
test. -/
def stateCacheBustTwin : State :=
  { currentPost := {}
    editor := { isDirty := false
                present := {
      blocksByClientId :=
        [("123", { clientId := "123", name := "core/paragraph", attributes := [] })]
      blockOrder := [("", ["123"]), ("123", [])]
      edits := {} } } }

/-- Single-quote-block fixture from the suggested-format tests. -/
def stateFormatQuote : State :=
  { editor := { present := {
      blockOrder := [("", ["456"])]
      blocksByClientId :=
        [("456", { clientId := "456", name := "core/quote", attributes := [] })] } } }

/-- Quote-then-paragraph fixture from the suggested-format tests. -/
def stateFormatQuotePara : State :=
  { editor := { present := {
      blockOrder := [("", ["456", "789"])]
      blocksByClientId :=
        [("456", { clientId := "456", name := "core/quote", attributes := [] }),
         ("789", { clientId := "789", name := "core/paragraph", attributes := [] })] } } }

/-- Image-then-quote fixture from the suggested-format tests. -/
def stateFormatImageQuote : State :=
  { editor := { present := {
      blockOrder := [("", ["123", "456"])]
      blocksByClientId :=
        [("123", { clientId := "123", name := "core/image", attributes := [] }),
         ("456", { clientId := "456", name := "core/quote", attributes := [] })] } } }

/-- A one-cell cache filled by calling the memoized `getInserterItems` on
the caching-test fixture at root `block1`. -/
def cacheCaching : InserterCache :=
  [(some "block1",
    { deps := inserterDeps stateCaching (some "block1")
      result := getInserterItems stateCaching (some "block1") })]

/-! ## Helper lemmas -/

/-- Association lookup finds a binding that is present, when keys are
unique. -/
theorem assocLookup_eq_some_of_mem {α : Type} {l : List (String × α)} {k : String} {v : α}
    (hmem : (k, v) ∈ l) (hkeys : (l.map Prod.fst).Nodup) :
    assocLookup k l = some v := by
  induction l with
  | nil => cases hmem
  | cons hd tl ih =>
    obtain ⟨k', v'⟩ := hd
    simp only [List.map_cons, List.nodup_cons] at hkeys
    rcases List.mem_cons.mp hmem with heq | htl
    · cases heq
      simp [assocLookup]
    · have hk : k' ≠ k := by
        rintro rfl
        exact hkeys.1 (List.mem_map.mpr ⟨(k', v), htl, rfl⟩)
      simp [assocLookup, hk, ih htl hkeys.2]

/-- Association lookup misses exactly the absent keys. -/
theorem assocLookup_eq_none_of_not_mem {α : Type} {l : List (String × α)} {k : String}
    (h : k ∉ l.map Prod.fst) :
    assocLookup k l = none := by
  induction l with
  | nil => rfl
  | cons hd tl ih =>
    simp only [List.map_cons, List.mem_cons] at h
    push_neg at h
    have h1 : hd.1 ≠ k := Ne.symm h.1
    simp [assocLookup, h1, ih h.2]

/-- `jsIndexOf` never answers below `-1`. -/
theorem jsIndexOf_ge_neg_one (l : List String) (c : String) :
    -1 ≤ jsIndexOf l c := by
  induction l with
  | nil => simp [jsIndexOf]
  | cons hd tl ih =>
    simp only [jsIndexOf]
    by_cases hhd : hd = c
    · simp [hhd]
    · rw [if_neg hhd]
      by_cases hmiss : jsIndexOf tl c = -1
      · rw [if_pos hmiss]
      · rw [if_neg hmiss]
        omega

/-- `jsIndexOf` of an element sitting at position `i` of a duplicate-free
list is `i` itself. -/
theorem jsIndexOf_eq_of_getElem? {l : List String} {i : Nat} {c : String}
    (hget : l[i]? = some c) (hnd : l.Nodup) :
    jsIndexOf l c = (i : Int) := by
  induction l generalizing i with
  | nil => simp at hget
  | cons hd tl ih =>
    rcases i with _ | i
    · simp only [List.getElem?_cons_zero, Option.some_inj] at hget
      subst hget
      simp [jsIndexOf]
    · simp only [List.getElem?_cons_succ] at hget
      have hne : hd ≠ c := by
        rintro rfl
        exact (List.nodup_cons.mp hnd).1 (List.getElem?_mem hget)
      have htl := ih hget (List.nodup_cons.mp hnd).2
      have hnneg : jsIndexOf tl c ≠ -1 := by
        rw [htl]; omega
      simp only [jsIndexOf, if_neg hne, if_neg hnneg, htl]
      push_cast
      ring

/-- `jsIndexOf` of an absent element is `-1`. -/
theorem jsIndexOf_eq_neg_one_of_not_mem {l : List String} {c : String}
    (h : c ∉ l) :
    jsIndexOf l c = -1 := by
  induction l with
  | nil => rfl
  | cons hd tl ih =>
    simp only [List.mem_cons] at h
    push_neg at h
    have h1 : hd ≠ c := Ne.symm h.1
    simp [jsIndexOf, h1, ih h.2]

/-- A non-negative answer of `jsIndexOf` points at the element. -/
theorem getElem?_of_jsIndexOf {l : List String} {c : String} {i : Nat}
    (h : jsIndexOf l c = (i : Int)) :
    l[i]? = some c := by
  induction l generalizing i with
  | nil =>
    exfalso
    simp only [jsIndexOf] at h
    omega
  | cons hd tl ih =>
    by_cases hhd : hd = c
    · subst hhd
      have h0 : jsIndexOf (hd :: tl) hd = 0 := by simp [jsIndexOf]
      rw [h0] at h
      have : i = 0 := by omega
      subst this
      simp
    · simp only [jsIndexOf, if_neg hhd] at h
      by_cases hmiss : jsIndexOf tl c = -1
      · rw [if_pos hmiss] at h
        omega
      · rw [if_neg hmiss] at h
        have hge := jsIndexOf_ge_neg_one tl c
        rcases i with _ | i
        · exfalso
          omega
        · have : jsIndexOf tl c = (i : Int) := by push_cast at h ⊢; omega
          simpa using ih this

/-! ## Claim theorems -/

/-- **C3**: `isEditedPostPublishable` returns true for every state in which
the editor is dirty or the current post's status is `pending` or `draft`,
and returns false for every non-dirty state whose current post status is
`publish`, `private`, or `future`. -/
theorem isEditedPostPublishable_spec (s : State) :
    ((s.editor.isDirty = true ∨ s.currentPost.status = some "pending" ∨
        s.currentPost.status = some "draft") → isEditedPostPublishable s = true) ∧
    (s.editor.isDirty = false →
      (s.currentPost.status = some "publish" ∨ s.currentPost.status = some "private" ∨
        s.currentPost.status = some "future") → isEditedPostPublishable s = false) := by
  constructor
  · rintro (h | h | h) <;>
      simp [isEditedPostPublishable, isEditedPostDirty, h]
  · rintro hd (h | h | h) <;>
      simp [isEditedPostPublishable, isEditedPostDirty, hd, h]

/-- Witness for C3: a clean pending post is publishable; a clean published
post is not. -/
theorem isEditedPostPublishable_spec_witness :
    isEditedPostPublishable { currentPost := { status := some "pending" } } = true ∧
    isEditedPostPublishable { currentPost := { status := some "publish" } } = false :=
  ⟨(isEditedPostPublishable_spec _).1 (Or.inr (Or.inl rfl)),
   (isEditedPostPublishable_spec _).2 rfl (Or.inl rfl)⟩

/-- **C8**: `canUserUseUnfilteredHTML` returns true if and only if the
current post's `_links` object contains the property
`wp:action-unfiltered_html`. -/
theorem canUserUseUnfilteredHTML_spec (s : State) :
    canUserUseUnfilteredHTML s = true ↔
      ∃ props, s.currentPost.links = some props ∧
        "wp:action-unfiltered_html" ∈ props := by
  cases h : s.currentPost.links with
  | none => simp [canUserUseUnfilteredHTML, h]
  | some props => simp [canUserUseUnfilteredHTML, h]

/-- Witness for C8 at the test fixture: a `_links` object carrying the
property grants the capability. -/
theorem canUserUseUnfilteredHTML_spec_witness :
    canUserUseUnfilteredHTML
      { currentPost := { links := some ["wp:action-unfiltered_html"] } } = true :=
  (canUserUseUnfilteredHTML_spec _).mpr
    ⟨["wp:action-unfiltered_html"], rfl, by simp⟩

/-- **C9**: `getEditedPostVisibility` returns `private` when the effective
status is `private`, `password` when an effective password is set, and
`public` otherwise; the effective status/password are the `edits` values
when present, else the `currentPost` values (`effectiveStatus`,
`effectivePassword`), and an edit setting the password to `null` removes
password protection. -/
theorem getEditedPostVisibility_spec (s : State) :
    (effectiveStatus s = some "private" → getEditedPostVisibility s = "private") ∧
    (effectiveStatus s ≠ some "private" → truthyStr (effectivePassword s) = true →
      getEditedPostVisibility s = "password") ∧
    (effectiveStatus s ≠ some "private" → truthyStr (effectivePassword s) = false →
      getEditedPostVisibility s = "public") ∧
    (s.editor.present.edits.password = some none →
      effectiveStatus s ≠ some "private" → getEditedPostVisibility s = "public") := by
  refine ⟨fun h => ?_, fun h hp => ?_, fun h hp => ?_, fun hedit h => ?_⟩
  · simp [getEditedPostVisibility, h]
  · simp [getEditedPostVisibility, h, hp]
  · simp [getEditedPostVisibility, h, hp]
  · have hp : truthyStr (effectivePassword s) = false := by
      simp [effectivePassword, hedit, truthyStr]
    simp [getEditedPostVisibility, h, hp]

/-- Witness for C9 at the test fixture: edits setting status `private` and
password `null` over a password-protected draft yield `private`; dropping
the status edit yields `public` (the password edit removed protection). -/
theorem getEditedPostVisibility_spec_witness :
    getEditedPostVisibility
      { currentPost := { status := some "draft", password := some "chicken" }
        editor := { present := { edits :=
          { status := some (some "private"), password := some none } } } } = "private" ∧
    getEditedPostVisibility
      { currentPost := { status := some "draft", password := some "chicken" }
        editor := { present := { edits := { password := some none } } } } = "public" :=
  ⟨(getEditedPostVisibility_spec _).1 rfl,
   (getEditedPostVisibility_spec _).2.2.2 rfl (by decide)⟩

/-- **C10**: `getBlockListSettings( state, clientId )` returns the settings
object stored under `clientId` in `state.blockListSettings` when one
exists, and returns `undefined` (it is total, it cannot throw) when no
settings exist for that client id. -/
theorem getBlockListSettings_spec (s : State) (clientId : String) :
    (∀ v, (clientId, v) ∈ s.blockListSettings →
      (s.blockListSettings.map Prod.fst).Nodup →
      getBlockListSettings s clientId = some v) ∧
    (clientId ∉ s.blockListSettings.map Prod.fst →
      getBlockListSettings s clientId = none) := by
  constructor
  · intro v hmem hkeys
    exact assocLookup_eq_some_of_mem hmem hkeys
  · intro habs
    exact assocLookup_eq_none_of_not_mem habs

/-- Witness for C10 at the test fixture: the `chicken` settings are found;
with an empty settings map the result is `undefined`. -/
theorem getBlockListSettings_spec_witness :
    getBlockListSettings
      { blockListSettings :=
          [("chicken", { allowedBlocks := none, templateLock := none }),
           ("ribs", { allowedBlocks := none, templateLock := none })] }
      "chicken" = some { allowedBlocks := none, templateLock := none } ∧
    getBlockListSettings { blockListSettings := [] } "chicken" = none :=
  ⟨(getBlockListSettings_spec _ _).1 _ (by simp) (by simp),
   (getBlockListSettings_spec _ _).2 (by simp)⟩

/-- **C5**: `getSuggestedPostFormat` returns null for a post with no blocks
and null for a post with more than one top-level block, except that a post
whose first block is `core/quote` and whose second block is
`core/paragraph` yields `quote`; for a single-block post it returns
`image` for `core/image`, `quote` for `core/quote`, and `video` for
`core-embed/youtube`. -/
theorem getSuggestedPostFormat_spec (s : State) :
    (getBlockOrder s none = [] → getSuggestedPostFormat s = none) ∧
    (2 ≤ (getBlockOrder s none).length →
      (∀ a b, getBlockOrder s none = [a, b] →
        ¬(getBlockName s a = some "core/quote" ∧
          getBlockName s b = some "core/paragraph")) →
      getSuggestedPostFormat s = none) ∧
    (∀ a b, getBlockOrder s none = [a, b] →
      getBlockName s a = some "core/quote" →
      getBlockName s b = some "core/paragraph" →
      getSuggestedPostFormat s = some "quote") ∧
    (∀ a, getBlockOrder s none = [a] →
      (getBlockName s a = some "core/image" → getSuggestedPostFormat s = some "image") ∧
      (getBlockName s a = some "core/quote" → getSuggestedPostFormat s = some "quote") ∧
      (getBlockName s a = some "core-embed/youtube" →
        getSuggestedPostFormat s = some "video")) := by
  refine ⟨fun h => ?_, fun hlen hexc => ?_, fun a b hord hqa hpb => ?_, fun a hord => ?_⟩
  · simp [getSuggestedPostFormat, h]
  · rcases hord : getBlockOrder s none with _ | ⟨a, _ | ⟨b, _ | ⟨c, rest⟩⟩⟩
    · simp [getSuggestedPostFormat, hord]
    · rw [hord] at hlen; simp at hlen
    · have hnot := hexc a b hord
      by_cases hqa : getBlockName s a = some "core/quote"
      · have hpb : getBlockName s b ≠ some "core/paragraph" := fun hpb => hnot ⟨hqa, hpb⟩
        simp [getSuggestedPostFormat, hord, hqa, hpb]
      · simp [getSuggestedPostFormat, hord, hqa]
    · simp [getSuggestedPostFormat, hord]
  · simp [getSuggestedPostFormat, hord, hqa, hpb]
  · refine ⟨fun h => ?_, fun h => ?_, fun h => ?_⟩ <;>
      simp [getSuggestedPostFormat, hord, h]

/-- Witness for C5 at the test fixtures: a lone quote block suggests
`quote`; a quote followed by a paragraph suggests `quote`; an image
followed by a quote suggests nothing. -/
theorem getSuggestedPostFormat_spec_witness :
    getSuggestedPostFormat stateFormatQuote = some "quote" ∧
    getSuggestedPostFormat stateFormatQuotePara = some "quote" ∧
    getSuggestedPostFormat stateFormatImageQuote = none :=
  ⟨((getSuggestedPostFormat_spec stateFormatQuote).2.2.2 "456" rfl).2.1 rfl,
   (getSuggestedPostFormat_spec stateFormatQuotePara).2.2.1 "456" "789" rfl rfl rfl,
   (getSuggestedPostFormat_spec stateFormatImageQuote).2.1 (by decide)
     (by
       intro a b hab
       rw [show getBlockOrder stateFormatImageQuote none = ["123", "456"] from rfl] at hab
       cases hab
       decide)⟩

/-- **C1**: every selector is a pure function of the store state: on two
deeply-equal states each selector returns equal results.  In this value
semantics a selector is a function out of `State`, so a call cannot modify
the state it is given, and the memoized cache-bust token (whose value
models the returned reference) is equal on deeply-equal states. -/
theorem selectors_pure (s s' : State) (h : State.deepEq s s' = true)
    (cid : String) (r : Option String) :
    getBlockDependantsCacheBust s cid = getBlockDependantsCacheBust s' cid ∧
    isEditedPostPublishable s = isEditedPostPublishable s' ∧
    getBlockInsertionPoint s = getBlockInsertionPoint s' ∧
    getSuggestedPostFormat s = getSuggestedPostFormat s' ∧
    isBlockWithinSelection s cid = isBlockWithinSelection s' cid ∧
    hasMultiSelection s = hasMultiSelection s' ∧
    canUserUseUnfilteredHTML s = canUserUseUnfilteredHTML s' ∧
    getEditedPostVisibility s = getEditedPostVisibility s' ∧
    getBlockListSettings s cid = getBlockListSettings s' cid ∧
    getInserterItems s r = getInserterItems s' r := by
  have heq : s = s' := of_decide_eq_true h
  subst heq
  exact ⟨rfl, rfl, rfl, rfl, rfl, rfl, rfl, rfl, rfl, rfl⟩

/-- Witness for C1 at the cache-bust test fixture: two separately
constructed, deeply-equal states give the identical cache-bust token. -/
theorem selectors_pure_witness :
    State.deepEq stateCacheBust stateCacheBustTwin = true ∧
    getBlockDependantsCacheBust stateCacheBust "123" =
      getBlockDependantsCacheBust stateCacheBustTwin "123" :=
  ⟨by decide,
   (selectors_pure stateCacheBust stateCacheBustTwin (by decide) "123" none).1⟩

/-- The `blockOrder` scan of `getBlockRootClientId` finds exactly the
unique entry containing the block, when keys are unique. -/
theorem blockOrder_find?_eq {l : List (String × List String)} {p : String}
    {order : List String} {c : String}
    (hmem : (p, order) ∈ l)
    (hkeys : (l.map Prod.fst).Nodup)
    (huniq : ∀ q o', (q, o') ∈ l → c ∈ o' → q = p)
    (hc : c ∈ order) :
    l.find? (fun kv => kv.2.contains c) = some (p, order) := by
  induction l with
  | nil => cases hmem
  | cons hd tl ih =>
    obtain ⟨q, o'⟩ := hd
    simp only [List.map_cons, List.nodup_cons] at hkeys
    by_cases hqo : c ∈ o'
    · have hq : q = p := huniq q o' (List.mem_cons_self _ _) hqo
      subst hq
      have horder : o' = order := by
        rcases List.mem_cons.mp hmem with heq | htl
        · exact (Prod.mk.injEq .. ▸ heq.symm).2
        · exact absurd (List.mem_map.mpr ⟨(q, order), htl, rfl⟩) hkeys.1
      subst horder
      exact List.find?_cons_of_pos _ (by simpa using hqo)
    · have hmem' : (p, order) ∈ tl := by
        rcases List.mem_cons.mp hmem with heq | htl
        · exfalso
          obtain ⟨hq, ho⟩ := Prod.mk.injEq .. ▸ heq.symm
          exact hqo (ho ▸ hc)
        · exact htl
      rw [List.find?_cons_of_neg _ (by simpa using hqo)]
      exact ih hmem' hkeys.2
        (fun q' o'' hm hcm => huniq q' o'' (List.mem_cons_of_mem _ hm) hcm)

/-- **C4**: `getBlockInsertionPoint` returns `{rootClientId, layout, index}`
with: for a single selected block, `rootClientId` the block's parent
(undefined at top level), `layout` the block's layout attribute, `index`
the block's position in its parent's order plus one; for a
multi-selection, `index` the position after the selection's end block; and
with no selection, `rootClientId` and `layout` undefined and `index` the
number of top-level blocks. -/
theorem getBlockInsertionPoint_spec (s : State) :
    (∀ (c p : String) (order : List String) (i : Nat),
      s.blockSelection.start = some c → s.blockSelection.stop = some c → c ≠ "" →
      (p, order) ∈ s.editor.present.blockOrder →
      (s.editor.present.blockOrder.map Prod.fst).Nodup →
      (∀ q o', (q, o') ∈ s.editor.present.blockOrder → c ∈ o' → q = p) →
      order[i]? = some c → order.Nodup →
      getBlockInsertionPoint s =
        { rootClientId := if p = "" then none else some p
          layout := blockLayout s c
          index := (i : Int) + 1 }) ∧
    (∀ (cs ce p : String) (order : List String) (j : Nat),
      s.blockSelection.start = some cs → s.blockSelection.stop = some ce → ce ≠ "" →
      (p, order) ∈ s.editor.present.blockOrder →
      (s.editor.present.blockOrder.map Prod.fst).Nodup →
      (∀ q o', (q, o') ∈ s.editor.present.blockOrder → ce ∈ o' → q = p) →
      order[j]? = some ce → order.Nodup →
      (getBlockInsertionPoint s).index = (j : Int) + 1) ∧
    (s.blockSelection.start = none → s.blockSelection.stop = none →
      getBlockInsertionPoint s =
        { rootClientId := none, layout := none,
          index := ((getBlockOrder s none).length : Int) }) := by
  have main : ∀ (c p : String) (order : List String) (i : Nat),
      s.blockSelection.stop = some c → c ≠ "" →
      (p, order) ∈ s.editor.present.blockOrder →
      (s.editor.present.blockOrder.map Prod.fst).Nodup →
      (∀ q o', (q, o') ∈ s.editor.present.blockOrder → c ∈ o' → q = p) →
      order[i]? = some c → order.Nodup →
      getBlockInsertionPoint s =
        { rootClientId := if p = "" then none else some p
          layout := blockLayout s c
          index := (i : Int) + 1 } := by
    intro c p order i hstop hc hmem hkeys huniq hget hnd
    have hcmem : c ∈ order := List.getElem?_mem hget
    have hfind := blockOrder_find?_eq hmem hkeys huniq hcmem
    have hroot : getBlockRootClientId s c = some p := by
      unfold getBlockRootClientId
      rw [hfind]
      rfl
    have hlookup : assocLookup p s.editor.present.blockOrder = some order :=
      assocLookup_eq_some_of_mem hmem hkeys
    have hidx : jsIndexOf order c = (i : Int) := jsIndexOf_eq_of_getElem? hget hnd
    by_cases hp : p = ""
    · subst hp
      simp [getBlockInsertionPoint, hstop, hc, rootOrUndefined, hroot,
        getBlockOrder, hlookup, hidx]
    · simp [getBlockInsertionPoint, hstop, hc, rootOrUndefined, hroot,
        getBlockOrder, hlookup, hidx, hp]
  refine ⟨fun c p order i _ => main c p order i,
          fun cs ce p order j _ hstop hc hmem hkeys huniq hget hnd => ?_,
          fun _ hstop => ?_⟩
  · rw [main ce p order j hstop hc hmem hkeys huniq hget hnd]
  · simp [getBlockInsertionPoint, hstop]

/-- Witness for C4 at the nested-selected-block fixture: the insertion
point is inside `clientId1`, right after its only child `clientId2`. -/
theorem getBlockInsertionPoint_spec_witness :
    getBlockInsertionPoint stateNestedSelection =
      { rootClientId := some "clientId1", layout := none, index := 1 } := by
  have h := (getBlockInsertionPoint_spec stateNestedSelection).1
    "clientId2" "clientId1" ["clientId2"] 0 rfl rfl (by decide) (by decide) (by decide)
    (by
      intro q o' hmem hc
      simp [stateNestedSelection] at hmem
      rcases hmem with ⟨rfl, rfl⟩ | ⟨rfl, rfl⟩ | ⟨rfl, rfl⟩
      · simp at hc
      · rfl
      · simp at hc)
    rfl (by decide)
  simpa using h

/-- `jsSlice` with in-range non-negative indices is take-then-drop. -/
theorem jsSlice_of_nat {α : Type} (l : List α) (i j : Nat)
    (hi : i ≤ l.length) (hj : j ≤ l.length) :
    jsSlice l (i : Int) (j : Int) = (l.take j).drop i := by
  simp only [jsSlice]
  rw [if_neg (by omega), if_neg (by omega)]
  have h1 : min (i : Int) (l.length : Int) = (i : Int) :=
    min_eq_left (by exact_mod_cast hi)
  have h2 : min (j : Int) (l.length : Int) = (j : Int) :=
    min_eq_left (by exact_mod_cast hj)
  rw [h1, h2, Int.toNat_natCast, Int.toNat_natCast]

/-- **C7**: for a multi-selection from start block S to end block E in the
same block order (S strictly before E), `isBlockWithinSelection` answers
true exactly for the blocks from S inclusive up to but excluding E, and
answers false for every block when the selection has no start and end. -/
theorem isBlockWithinSelection_spec (s : State) :
    (∀ (st en rootKey : String) (order : List String) (i j : Nat),
      s.blockSelection.start = some st → s.blockSelection.stop = some en →
      st ≠ en →
      (rootKey, order) ∈ s.editor.present.blockOrder →
      (s.editor.present.blockOrder.map Prod.fst).Nodup →
      (∀ q o', (q, o') ∈ s.editor.present.blockOrder → st ∈ o' → q = rootKey) →
      order[i]? = some st → order[j]? = some en → i < j → order.Nodup →
      ∀ c, (isBlockWithinSelection s c = true ↔
        (c ≠ "" ∧ c ∈ (order.take j).drop i))) ∧
    (s.blockSelection.start = none → s.blockSelection.stop = none →
      ∀ c, isBlockWithinSelection s c = false) := by
  constructor
  · intro st en rootKey order i j hstart hstop hne hmem hkeys huniq hgst hgen hij hnd c
    obtain ⟨hilt, -⟩ := List.getElem?_eq_some.mp hgst
    obtain ⟨hjlt, -⟩ := List.getElem?_eq_some.mp hgen
    have hroot : getBlockRootClientId s st = some rootKey := by
      unfold getBlockRootClientId
      rw [blockOrder_find?_eq hmem hkeys huniq (List.getElem?_mem hgst)]
      rfl
    have horder : getBlockOrder s (some rootKey) = order := by
      simp [getBlockOrder, assocLookup_eq_some_of_mem hmem hkeys]
    have hsi : jsIndexOf order st = (i : Int) := jsIndexOf_eq_of_getElem? hgst hnd
    have hei : jsIndexOf order en = (j : Int) := jsIndexOf_eq_of_getElem? hgen hnd
    have hcast : (j : Int) + 1 = ((j + 1 : Nat) : Int) := by push_cast; ring
    have hmulti : getMultiSelectedBlockClientIds s = (order.take (j + 1)).drop i := by
      simp only [getMultiSelectedBlockClientIds, hstart, hstop]
      rw [if_neg hne, hroot, horder, hsi, hei, if_neg (by omega), hcast,
        jsSlice_of_nat order i (j + 1) (by omega) (by omega)]
    have hlen : (getMultiSelectedBlockClientIds s).length = j + 1 - i := by
      rw [hmulti]
      simp only [List.length_drop, List.length_take]
      omega
    have hidsnd : (getMultiSelectedBlockClientIds s).Nodup := by
      rw [hmulti]
      exact hnd.sublist ((List.drop_sublist _ _).trans (List.take_sublist _ _))
    have hgetIds : ∀ k, i + k < j + 1 →
        (getMultiSelectedBlockClientIds s)[k]? = order[i + k]? := by
      intro k hk
      rw [hmulti, List.getElem?_drop]
      exact List.getElem?_take_of_lt (by omega)
    constructor
    · intro htrue
      by_cases hc : c = ""
      · rw [isBlockWithinSelection, if_pos hc] at htrue
        cases htrue
      · refine ⟨hc, ?_⟩
        rw [isBlockWithinSelection, if_neg hc] at htrue
        simp only [Bool.and_eq_true, decide_eq_true_eq] at htrue
        obtain ⟨h1, h2⟩ := htrue
        have hge := jsIndexOf_ge_neg_one (getMultiSelectedBlockClientIds s) c
        obtain ⟨k, hk⟩ : ∃ k : Nat,
            jsIndexOf (getMultiSelectedBlockClientIds s) c = (k : Int) :=
          ⟨(jsIndexOf (getMultiSelectedBlockClientIds s) c).toNat, by omega⟩
        have hgk : (getMultiSelectedBlockClientIds s)[k]? = some c :=
          getElem?_of_jsIndexOf hk
        rw [hk, hlen] at h2
        have hklt : k < j - i := by omega
        have hordget : order[i + k]? = some c := by
          rw [← hgetIds k (by omega)]
          exact hgk
        have : ((order.take j).drop i)[k]? = some c := by
          rw [List.getElem?_drop, List.getElem?_take_of_lt (by omega)]
          exact hordget
        exact List.getElem?_mem this
    · rintro ⟨hc, hmem'⟩
      obtain ⟨k, hk⟩ := List.mem_iff_getElem?.mp hmem'
      rw [List.getElem?_drop] at hk
      obtain ⟨hik, -⟩ := List.getElem?_eq_some.mp hk
      rw [List.length_take] at hik
      have hikj : i + k < j := by omega
      rw [List.getElem?_take_of_lt hikj] at hk
      have hkid : (getMultiSelectedBlockClientIds s)[k]? = some c := by
        rw [hgetIds k (by omega)]
        exact hk
      have hidx : jsIndexOf (getMultiSelectedBlockClientIds s) c = (k : Int) :=
        jsIndexOf_eq_of_getElem? hkid hidsnd
      rw [isBlockWithinSelection, if_neg hc]
      simp only [Bool.and_eq_true, decide_eq_true_eq, hidx, hlen]
      constructor <;> [omega; skip]
      omega
  · intro hstart hstop c
    by_cases hc : c = ""
    · rw [isBlockWithinSelection, if_pos hc]
    · rw [isBlockWithinSelection, if_neg hc]
      have hempty : getMultiSelectedBlockClientIds s = [] := by
        simp [getMultiSelectedBlockClientIds, hstart, hstop]
      simp [hempty, jsIndexOf]

/-- Witness for C7 at the test fixture (selection from block `5` to block
`3` in the order `5, 4, 3, 2, 1`): blocks `5` and `4` are within the
selection, the end block `3` and the unselected block `2` are not, and an
empty selection contains nothing. -/
theorem isBlockWithinSelection_spec_witness :
    isBlockWithinSelection stateWithinSelection "5" = true ∧
    isBlockWithinSelection stateWithinSelection "4" = true ∧
    isBlockWithinSelection stateWithinSelection "3" = false ∧
    isBlockWithinSelection stateWithinSelection "2" = false ∧
    isBlockWithinSelection { stateWithinSelection with blockSelection := {} } "4" = false := by
  have huniq : ∀ q o',
      (q, o') ∈ stateWithinSelection.editor.present.blockOrder → "5" ∈ o' → q = "" := by
    intro q o' hmem hc
    simp [stateWithinSelection] at hmem
    rcases hmem with ⟨rfl, rfl⟩
    rfl
  have h := (isBlockWithinSelection_spec stateWithinSelection).1
    "5" "3" "" ["5", "4", "3", "2", "1"] 0 2 rfl rfl (by decide) (by decide) (by decide)
    huniq rfl rfl (by decide) (by decide)
  have hnone := (isBlockWithinSelection_spec
    { stateWithinSelection with blockSelection := {} }).2 rfl rfl "4"
  refine ⟨?_, ?_, ?_, ?_, hnone⟩
  · exact (h "5").mpr ⟨by decide, by decide⟩
  · exact (h "4").mpr ⟨by decide, by decide⟩
  · rw [← Bool.not_eq_true]
    intro htrue
    have := (h "3").mp htrue
    revert this
    decide
  · rw [← Bool.not_eq_true]
    intro htrue
    have := (h "2").mp htrue
    revert this
    decide

/-- The strict ranking comparison, as an arithmetic statement. -/
theorem keyLtB_iff {a b : Nat × Nat} :
    keyLtB a b = true ↔ (a.1 < b.1 ∨ (a.1 = b.1 ∧ a.2 < b.2)) := by
  simp [keyLtB]

/-- Strictly outranking is asymmetric. -/
theorem keyLt_asymm {a b : Nat × Nat} (h : keyLtB a b = true) :
    keyLtB b a = false := by
  rw [Bool.eq_false_iff]
  intro h'
  rw [keyLtB_iff] at h h'
  omega

/-- An item outranked by `y` is also outranked by anything outranking
`y`. -/
theorem keyLt_head_trans {x y z : Nat × Nat}
    (hyx : keyLtB y x = true) (hyz : keyLtB y z = false) :
    keyLtB x z = false := by
  rw [Bool.eq_false_iff] at hyz ⊢
  intro h'
  apply hyz
  rw [keyLtB_iff] at hyx h' ⊢
  omega

/-- Membership through `insertItemDesc`. -/
theorem mem_insertItemDesc {x z : InserterItem} {l : List InserterItem} :
    z ∈ insertItemDesc x l ↔ z = x ∨ z ∈ l := by
  induction l with
  | nil => simp [insertItemDesc]
  | cons y ys ih =>
    by_cases hyx : keyLtB (itemKey y) (itemKey x) = true
    · simp only [insertItemDesc, if_pos hyx, List.mem_cons]
    · simp only [insertItemDesc, if_neg hyx, List.mem_cons, ih]
      tauto

/-- Stable descending insertion preserves descending sortedness. -/
theorem insertItemDesc_sorted {x : InserterItem} {l : List InserterItem}
    (h : l.Pairwise (fun a b => keyLtB (itemKey a) (itemKey b) = false)) :
    (insertItemDesc x l).Pairwise
      (fun a b => keyLtB (itemKey a) (itemKey b) = false) := by
  induction l with
  | nil => simp [insertItemDesc]
  | cons y ys ih =>
    rw [List.pairwise_cons] at h
    obtain ⟨hy, hys⟩ := h
    by_cases hyx : keyLtB (itemKey y) (itemKey x) = true
    · rw [insertItemDesc, if_pos hyx]
      refine List.Pairwise.cons ?_ (List.Pairwise.cons hy hys)
      intro z hz
      rcases List.mem_cons.mp hz with rfl | hzys
      · exact keyLt_asymm hyx
      · exact keyLt_head_trans hyx (hy z hzys)
    · rw [insertItemDesc, if_neg hyx]
      refine List.Pairwise.cons ?_ (ih hys)
      intro z hz
      rcases mem_insertItemDesc.mp hz with rfl | hzys
      · exact Bool.eq_false_iff.mpr hyx
      · exact hy z hzys

/-- Folding stable insertions over any sorted accumulator stays sorted. -/
theorem foldl_insertItemDesc_sorted :
    ∀ (l : List InserterItem) (acc : List InserterItem),
      acc.Pairwise (fun a b => keyLtB (itemKey a) (itemKey b) = false) →
      (l.foldl (fun a x => insertItemDesc x a) acc).Pairwise
        (fun a b => keyLtB (itemKey a) (itemKey b) = false) := by
  intro l
  induction l with
  | nil => exact fun acc hacc => hacc
  | cons x xs ih =>
    intro acc hacc
    exact ih _ (insertItemDesc_sorted hacc)

/-- `sortItemsDesc` always yields a list sorted by descending rank. -/
theorem sortItemsDesc_sorted (l : List InserterItem) :
    (sortItemsDesc l).Pairwise
      (fun a b => keyLtB (itemKey a) (itemKey b) = false) :=
  foldl_insertItemDesc_sorted l [] List.Pairwise.nil

/-- **C6**: `getInserterItems` returns block-type and reusable-block items
ordered by descending utility and, among equal utility, by descending
frecency (no later item strictly outranks an earlier one); frecency grows
with the recorded `insertUsage` count at equal time; and on the ordering
test fixture the reusable block with count 20 ranks before the one with
count 10 at equal recorded time, followed by the block types. -/
theorem getInserterItems_spec :
    (∀ (s : State) (r : Option String),
      (getInserterItems s r).Pairwise
        (fun a b => keyLtB (itemKey a) (itemKey b) = false)) ∧
    (∀ (t : Option Nat) (c1 c2 : Nat), c1 < c2 →
      calculateFrecency t c1 < calculateFrecency t c2) ∧
    (getInserterItems stateOrderTest none).map InserterItem.id =
      ["core/block/2", "core/block/1", "core/test-block-b", "core/test-block-a"] := by
  refine ⟨fun s r => sortItemsDesc_sorted _, fun t c1 c2 h => ?_, by decide⟩
  cases t <;> simp only [calculateFrecency] <;> omega

/-- Witness for C6: at equal recorded time, a usage count of 20 yields a
strictly higher frecency than a count of 10. -/
theorem getInserterItems_spec_witness :
    (10 : Nat) < 20 ∧
    calculateFrecency (some 1000) 10 < calculateFrecency (some 1000) 20 :=
  ⟨by decide, getInserterItems_spec.2.1 (some 1000) 10 20 (by decide)⟩

/-- Noninterference of the inserter derivation: `getInserterItems` reads
the state only through the dependants the caching layer records, so two
states with equal dependants (for the same root) yield equal results —
in particular, changes to unrelated parts of the state (another block's
`blockListSettings`, the selection, the post) cannot change the result. -/
theorem getInserterItems_frame (s1 s2 : State) (r : Option String)
    (h : inserterDeps s1 r = inserterDeps s2 r) :
    getInserterItems s1 r = getInserterItems s2 r := by
  have hbls := congrArg InserterDeps.rootSettings h
  have hbyId := congrArg InserterDeps.blocksByClientId h
  have horder := congrArg InserterDeps.blockOrder h
  have husage := congrArg InserterDeps.insertUsage h
  have habt := congrArg InserterDeps.allowedBlockTypes h
  have htl := congrArg InserterDeps.templateLock h
  have hdata := congrArg InserterDeps.reusableData h
  simp only [inserterDeps] at hbls hbyId horder husage habt htl hdata
  have hname : ∀ x, getBlockName s1 x = getBlockName s2 x := by
    intro x; simp [getBlockName, hbyId]
  have hord : ∀ x, getBlockOrder s1 x = getBlockOrder s2 x := by
    intro x; simp [getBlockOrder, horder]
  have hbls' : ∀ k, r = some k →
      assocLookup k s1.blockListSettings = assocLookup k s2.blockListSettings := by
    intro k hk
    subst hk
    simpa using hbls
  have hlock : getTemplateLock s1 r = getTemplateLock s2 r := by
    cases r with
    | none => simp [getTemplateLock, htl]
    | some k =>
      by_cases hk : k = ""
      · simp [getTemplateLock, hk, htl]
      · simp [getTemplateLock, hk, hbls' k rfl]
  have hcan : ∀ n, canInsertBlockType s1 n r = canInsertBlockType s2 n r := by
    intro n
    cases hbt : findBlockType n with
    | none => simp [canInsertBlockType, hbt]
    | some bt =>
      cases r with
      | none =>
        simp [canInsertBlockType, hbt, habt, hlock, hname]
      | some k =>
        simp [canInsertBlockType, hbt, habt, hlock, hname, hbls' k rfl]
  have hgetusage : ∀ id, getInsertUsage s1 id = getInsertUsage s2 id := by
    intro id; simp [getInsertUsage, husage]
  have hdesc_aux : ∀ fuel ids, descendantsAux s1 fuel ids = descendantsAux s2 fuel ids := by
    intro fuel
    induction fuel with
    | zero => intro ids; rfl
    | succ n ih =>
      intro ids
      simp only [descendantsAux]
      have hfun : (fun cid => cid :: descendantsAux s1 n (getBlockOrder s1 (some cid)))
          = (fun cid => cid :: descendantsAux s2 n (getBlockOrder s2 (some cid))) := by
        funext cid
        rw [hord, ih]
      rw [hfun]
  have hdesc : getClientIdsWithDescendants s1 = getClientIdsWithDescendants s2 := by
    simp only [getClientIdsWithDescendants]
    rw [horder, hord, hdesc_aux]
  have hbuildT : ∀ bt, buildBlockTypeInserterItem s1 bt = buildBlockTypeInserterItem s2 bt := by
    intro bt
    simp [buildBlockTypeInserterItem, hgetusage, hdesc, hname]
  have hshould : ∀ e, shouldIncludeReusableBlock s1 r e = shouldIncludeReusableBlock s2 r e := by
    intro e
    simp [shouldIncludeReusableBlock, hcan, hbyId]
  have hbuildR : ∀ e, buildReusableBlockInserterItem s1 e = buildReusableBlockInserterItem s2 e := by
    intro e
    simp [buildReusableBlockInserterItem, hgetusage, hbyId]
  simp only [getInserterItems]
  rw [hdata]
  have hfilterT : blockTypes.filter
        (fun bt => bt.inserterSupport && canInsertBlockType s1 bt.name r)
      = blockTypes.filter
        (fun bt => bt.inserterSupport && canInsertBlockType s2 bt.name r) := by
    simp only [hcan]
  have hmapT : ∀ l : List BlockType,
      l.map (buildBlockTypeInserterItem s1) = l.map (buildBlockTypeInserterItem s2) := by
    intro l
    simp only [List.map_inj_left]
    intro a _
    exact hbuildT a
  have hshouldF : shouldIncludeReusableBlock s1 r = shouldIncludeReusableBlock s2 r :=
    funext hshould
  have hbuildRF : buildReusableBlockInserterItem s1 = buildReusableBlockInserterItem s2 :=
    funext hbuildR
  rw [hfilterT, hmapT, hshouldF, hbuildRF]

/-- Looking a root up after a cache update: the updated cell under the
written root, the old cache elsewhere. -/
theorem cacheFind_cacheSet (q r : Option String) (cell : InserterMemoCell)
    (cache : InserterCache) :
    cacheFind q (cacheSet r cell cache) =
      if r = q then some cell else cacheFind q cache := by
  induction cache with
  | nil =>
    by_cases hq : r = q
    · simp [cacheSet, cacheFind, hq]
    · simp [cacheSet, cacheFind, hq]
  | cons hd tl ih =>
    obtain ⟨k, c⟩ := hd
    by_cases hk : k = r
    · subst hk
      simp only [cacheSet, if_pos rfl]
      by_cases hq : k = q
      · simp [cacheFind, hq]
      · simp [cacheFind, hq]
    · simp only [cacheSet, if_neg hk]
      by_cases hq : k = q
      · subst hq
        have : k ≠ r := hk
        simp [cacheFind, if_neg (Ne.symm this)]
      · simp [cacheFind, hq, ih]

/-- **C2**: the memoization layer is value-transparent: under the cache
invariant, a memoized call returns exactly the from-scratch derivation on
the current state and preserves the invariant; and while the dependants
recorded for a root are unchanged — even after unrelated parts of the
state changed — the call returns the stored result itself (the model of
returning the identical reference) and leaves the cache untouched. -/
theorem memoGetInserterItems_spec (cache : InserterCache) (s : State)
    (r : Option String) (hinv : InserterCacheInv cache) :
    (memoGetInserterItems cache s r).1 = getInserterItems s r ∧
    InserterCacheInv (memoGetInserterItems cache s r).2 ∧
    (∀ cell, cacheFind r cache = some cell → cell.deps = inserterDeps s r →
      memoGetInserterItems cache s r = (cell.result, cache)) := by
  have hsetinv : InserterCacheInv
      (cacheSet r ⟨inserterDeps s r, getInserterItems s r⟩ cache) := by
    intro q cell' h'
    rw [cacheFind_cacheSet] at h'
    by_cases hq : r = q
    · rw [if_pos hq] at h'
      injection h' with h'
      subst h'
      subst hq
      exact ⟨s, rfl, rfl⟩
    · rw [if_neg hq] at h'
      exact hinv q cell' h'
  cases hfind : cacheFind r cache with
  | none =>
    refine ⟨?_, ?_, ?_⟩
    · simp [memoGetInserterItems, hfind]
    · simpa [memoGetInserterItems, hfind] using hsetinv
    · intro cell hc
      cases hc
  | some cell =>
    by_cases hdeps : cell.deps = inserterDeps s r
    · obtain ⟨s₀, hd0, hr0⟩ := hinv r cell hfind
      have hres : cell.result = getInserterItems s r := by
        rw [hr0]
        exact getInserterItems_frame s₀ s r (hd0 ▸ hdeps)
      refine ⟨?_, ?_, ?_⟩
      · simp [memoGetInserterItems, hfind, hdeps, hres]
      · simpa [memoGetInserterItems, hfind, hdeps] using hinv
      · intro cell' hc' _
        injection hc' with hc'
        subst hc'
        simp [memoGetInserterItems, hfind, hdeps]
    · refine ⟨?_, ?_, ?_⟩
      · simp [memoGetInserterItems, hfind, hdeps]
      · simpa [memoGetInserterItems, hfind, hdeps] using hsetinv
      · intro cell' hc' hd'
        injection hc' with hc'
        subst hc'
        exact absurd hd' hdeps

/-- Witness for C2 at the caching-test fixture: a cache filled at root
`block1` satisfies the invariant; after restricting another block's
`blockListSettings`, the memoized call at `block1` returns the stored
result with the cache untouched, and that result equals the from-scratch
derivation on the changed state. -/
theorem memoGetInserterItems_spec_witness :
    InserterCacheInv cacheCaching ∧
    memoGetInserterItems cacheCaching stateCachingRestricted (some "block1") =
      (getInserterItems stateCaching (some "block1"), cacheCaching) ∧
    getInserterItems stateCaching (some "block1") =
      getInserterItems stateCachingRestricted (some "block1") := by
  have hinv : InserterCacheInv cacheCaching := by
    intro r cell h
    rw [show cacheFind r cacheCaching =
        (if (some "block1" : Option String) = r then
          some { deps := inserterDeps stateCaching (some "block1")
                 result := getInserterItems stateCaching (some "block1") }
         else none) from rfl] at h
    by_cases hr : (some "block1" : Option String) = r
    · rw [if_pos hr] at h
      injection h with h
      subst h
      cases hr
      exact ⟨stateCaching, rfl, rfl⟩
    · rw [if_neg hr] at h
      cases h
  have main := memoGetInserterItems_spec cacheCaching stateCachingRestricted
    (some "block1") hinv
  have hhit := main.2.2
    { deps := inserterDeps stateCaching (some "block1")
      result := getInserterItems stateCaching (some "block1") }
    rfl (by decide)
  refine ⟨hinv, hhit, ?_⟩
  have h1 := main.1
  rw [hhit] at h1
  exact h1
